import Mathlib

/-
Shallow embedding of `src/dictionary.py` (an educational reimplementation of a
Python dictionary).

Modelling conventions:
* Python `hash`, truthiness (`bool`), and `repr` are parameters of the model
  (`PyCtx`), since they depend on the key/value types a caller uses.
* A `DictEntry` carries the fields set by `DictEntry.__init__` plus an
  `isDUMMY` flag modelling Python object *identity* with the module-level
  sentinel `DUMMY = DictEntry("Dummy123", "Nothing")`: the check
  `entry == DUMMY` in `__setitem__` is reference equality, and only the
  sentinel object itself satisfies it.  A slot that holds the sentinel is
  represented by a copy of the sentinel's fields with the flag set; an
  in-place write to such a slot models a mutation of the shared sentinel.
* `self._used > (self._fill * (2 / 3))` multiplies by the IEEE double `2/3`,
  which is `2/3 - 1/(3*2^53)` exactly; for `0 <= _fill < 2^53` (every state a
  program could ever reach) the comparison agrees with the exact rational
  test `3 * _used > 2 * _fill`, which is how it is embedded here.
* The class attributes `_used/_fill/_small_table/_table` behave, for a single
  instance created from a clean module state, exactly like per-instance
  fields (ints are only rebound through `self`, and the lists are only
  mutated/rebound through `self`), so `Dictionary` below models one
  container with its own state.  The cross-instance sharing of the class
  lists is modelled separately (`PyClassState`/`PyInstance` further down).
-/

namespace PyDict

/-- Python-level context: the `hash` builtin restricted to the key type, the
truthiness test used by `if default:`, and the key/value the module puts in
the sentinel (`"Dummy123"`/`"Nothing"` in the source). -/
structure PyCtx (K V : Type) where
  hsh : K → Int
  truthy : V → Bool
  dkey : K
  dval : V

variable {K V : Type}

/-- `DictEntry.__init__`: stores `hash(key)`, the key and the value.
`isDUMMY` models identity with the module-level sentinel object. -/
structure DictEntry (K V : Type) where
  hash : Int
  key : K
  value : V
  isDUMMY : Bool
deriving DecidableEq

/-- `DictEntry(key, value)` as called by user code (`__setitem__`). -/
def mkEntry (ctx : PyCtx K V) (key : K) (value : V) : DictEntry K V :=
  { hash := ctx.hsh key, key := key, value := value, isDUMMY := false }

/-- `DUMMY = DictEntry("Dummy123", "Nothing")`, the module-level sentinel. -/
def DUMMY (ctx : PyCtx K V) : DictEntry K V :=
  { hash := ctx.hsh ctx.dkey, key := ctx.dkey, value := ctx.dval, isDUMMY := true }

/-- The state of one `Dictionary` instance: `_used`, `_fill`,
`_small_table` (stack) and `_table` (heap). -/
structure Dictionary (K V : Type) where
  used_ : Int
  fill_ : Int
  small_table_ : List (DictEntry K V)
  table_ : List (DictEntry K V)
deriving DecidableEq

/-- A freshly created `Dictionary()` (clean module state): class attributes
`_used = 0`, `_fill = 8`, `_small_table = []`, `_table = []`. -/
def Dictionary.empty : Dictionary K V := ⟨0, 8, [], []⟩

/-- The `table` property: `_small_table` while `_fill <= 8`, else `_table`. -/
def Dictionary.table (d : Dictionary K V) : List (DictEntry K V) :=
  if d.fill_ ≤ 8 then d.small_table_ else d.table_

/-- Writing through the `table` property (slot assignment / `append`) mutates
whichever list the property currently resolves to. -/
def Dictionary.setTable (d : Dictionary K V) (t : List (DictEntry K V)) :
    Dictionary K V :=
  if d.fill_ ≤ 8 then { d with small_table_ := t } else { d with table_ := t }

/-- `__len__`: returns `_used`. -/
def Dictionary.len (d : Dictionary K V) : Int := d.used_

/-- `_expand`: on the first growth (`_fill == 8`) append every slot of
`_small_table` to `_table` in order and empty `_small_table`; then double
`_fill`. -/
def Dictionary.expand_ (d : Dictionary K V) : Dictionary K V :=
  let d1 :=
    if d.fill_ = 8 then
      { d with table_ := d.table_ ++ d.small_table_,
               small_table_ := ([] : List (DictEntry K V)) }
    else d
  { d1 with fill_ := d1.fill_ * 2 }

/-- `_update_table_size`: increment `_used`; if `_used > _fill * (2/3)`
(embedded as the exact rational test, see the header note), `_expand`. -/
def Dictionary.update_table_size_ (d : Dictionary K V) : Dictionary K V :=
  let d1 := { d with used_ := d.used_ + 1 }
  if 2 * d1.fill_ < 3 * d1.used_ then d1.expand_ else d1

/-- The scan loop of `__getitem__`: value of the first entry whose stored
hash equals the queried hash. -/
def lookupHash (h : Int) : List (DictEntry K V) → Option V
  | [] => none
  | e :: es => if e.hash = h then some e.value else lookupHash h es

/-- `__getitem__(key, default)`: scan `self.table`; on a miss return
`default` if it is truthy, else raise `KeyError(key)` (also when `default`
is the implicit `None`, which is falsy). -/
def Dictionary.getItem (ctx : PyCtx K V) (d : Dictionary K V) (key : K)
    (default : Option V) : Except K V :=
  match lookupHash (ctx.hsh key) d.table with
  | some v => .ok v
  | none =>
    match default with
    | some dv => if ctx.truthy dv then .ok dv else .error key
    | none => .error key

/-- `get(key, default)`: delegates to `__getitem__`. -/
def Dictionary.get (ctx : PyCtx K V) (d : Dictionary K V) (key : K)
    (default : Option V) : Except K V :=
  d.getItem ctx key default

/-- First loop of `__setitem__`: overwrite, in place, the value of the first
entry whose hash matches; `none` if no entry matches. -/
def updateValue (h : Int) (value : V) :
    List (DictEntry K V) → Option (List (DictEntry K V))
  | [] => none
  | e :: es =>
    if e.hash = h then some ({ e with value := value } :: es)
    else (updateValue h value es).map (fun t => e :: t)

/-- Second loop of `__setitem__`: replace the first slot that *is* the
sentinel object (`entry == DUMMY`) with the new entry; `none` if there is
no such slot. -/
def replaceDummy (ne : DictEntry K V) :
    List (DictEntry K V) → Option (List (DictEntry K V))
  | [] => none
  | e :: es =>
    if e.isDUMMY then some (ne :: es)
    else (replaceDummy ne es).map (fun t => e :: t)

/-- `__setitem__(key, value)`: update in place if some hash matches;
otherwise build `DictEntry(key, value)`, recycle the first sentinel slot if
any, else append; in both insertion cases run `_update_table_size`. -/
def Dictionary.setItem (ctx : PyCtx K V) (d : Dictionary K V) (key : K)
    (value : V) : Dictionary K V :=
  match updateValue (ctx.hsh key) value d.table with
  | some t => d.setTable t
  | none =>
    let new_entry := mkEntry ctx key value
    match replaceDummy new_entry d.table with
    | some t => (d.setTable t).update_table_size_
    | none => (d.setTable (d.table ++ [new_entry])).update_table_size_

/-- The scan loop of `__delitem__`: replace the first slot whose hash
matches with the sentinel; `none` if no hash matches. -/
def delHash (dummy : DictEntry K V) (h : Int) :
    List (DictEntry K V) → Option (List (DictEntry K V))
  | [] => none
  | e :: es =>
    if e.hash = h then some (dummy :: es)
    else (delHash dummy h es).map (fun t => e :: t)

/-- `__delitem__(key)`: tombstone the first matching slot and decrement
`_used`; raise `KeyError(key)` if no slot's hash matches. -/
def Dictionary.delItem (ctx : PyCtx K V) (d : Dictionary K V) (key : K) :
    Except K (Dictionary K V) :=
  match delHash (DUMMY ctx) (ctx.hsh key) d.table with
  | some t => .ok { d.setTable t with used_ := d.used_ - 1 }
  | none => .error key

/-- `clear`: rebind both tables to fresh empty lists, `_fill = 8`,
`_used = 0`. -/
def Dictionary.clear (_d : Dictionary K V) : Dictionary K V := ⟨0, 8, [], []⟩

/-- One `f"{repr(entry.key)}: {repr(entry.value)}, "` fragment of
`__str__`; `rep`/`repV` stand for Python `repr` on keys and values. -/
def entryStr (rep : K → String) (repV : V → String) (e : DictEntry K V) :
    String :=
  rep e.key ++ ": " ++ repV e.value ++ ", "

/-- Python's `s[:-2]`: drop the last two characters (fewer if `s` is
shorter), code-point-wise. -/
def pyDropLast2 (s : String) : String := String.mk s.data.dropLast.dropLast

/-- `__str__`: accumulate `"\x7b"` plus one fragment per slot of
`self.table`, then `output[:-2] + "\x7d"`. -/
def Dictionary.strDict (rep : K → String) (repV : V → String)
    (d : Dictionary K V) : String :=
  pyDropLast2 (d.table.foldl (fun output e => output ++ entryStr rep repV e) "\x7b")
    ++ "\x7d"

/-- The spec's two-state machine over a container. -/
inductive DictState where
  | Inline
  | Promoted
deriving DecidableEq

/-- Modelled from the spec: `fill <= 8` means the `Inline` state, `fill > 8`
the `Promoted` state (the code exposes this through the `table` property and
the test's `sauces.table == sauces._table` assertions). -/
def Dictionary.state (d : Dictionary K V) : DictState :=
  if d.fill_ ≤ 8 then .Inline else .Promoted

/-- The public operations, for reasoning about whole call sequences. -/
inductive Op (K V : Type) where
  | set (key : K) (value : V)
  | get (key : K) (default : Option V)
  | del (key : K)
  | clear
deriving DecidableEq

/-- State transition of one public operation (`__getitem__` reads only;
a failed `__delitem__` raises before any mutation, leaving the state as
it was). -/
def step (ctx : PyCtx K V) (d : Dictionary K V) : Op K V → Dictionary K V
  | .set k v => d.setItem ctx k v
  | .get _ _ => d
  | .del k =>
    match d.delItem ctx k with
    | .ok d2 => d2
    | .error _ => d
  | .clear => d.clear

/-- Run a sequence of public operations. -/
def run (ctx : PyCtx K V) (d : Dictionary K V) : List (Op K V) → Dictionary K V
  | [] => d
  | op :: ops => run ctx (step ctx d op) ops

/-- States a single container can actually be in: the capacity ceiling never
drops below its initial value 8, and while the inline store is active the
heap table is still the empty list it started as. -/
def Dictionary.WF (d : Dictionary K V) : Prop :=
  8 ≤ d.fill_ ∧ (d.fill_ ≤ 8 → d.table_ = [])

/-- Container states reachable from a fresh `Dictionary()` by public
operations. -/
def Reachable (ctx : PyCtx K V) (d : Dictionary K V) : Prop :=
  ∃ ops : List (Op K V), run ctx Dictionary.empty ops = d

/-- Concrete context used to exercise the model: integer keys and values,
`hash` the identity, Python truthiness of an `int` (nonzero), and the
sentinel built from key `5`, value `0`. -/
def ctx0 : PyCtx Int Int :=
  { hsh := fun n => n, truthy := fun v => decide (v ≠ 0), dkey := 5, dval := 0 }

section Lemmas

variable (ctx : PyCtx K V)

theorem setTable_fill (d : Dictionary K V) (t : List (DictEntry K V)) :
    (d.setTable t).fill_ = d.fill_ := by
  unfold Dictionary.setTable; split <;> rfl

theorem setTable_used (d : Dictionary K V) (t : List (DictEntry K V)) :
    (d.setTable t).used_ = d.used_ := by
  unfold Dictionary.setTable; split <;> rfl

theorem setTable_table (d : Dictionary K V) (t : List (DictEntry K V)) :
    (d.setTable t).table = t := by
  unfold Dictionary.setTable Dictionary.table
  split <;> simp_all

theorem expand_eq (d : Dictionary K V) :
    d.expand_ =
      if d.fill_ = 8 then
        { d with table_ := d.table_ ++ d.small_table_,
                 small_table_ := [], fill_ := d.fill_ * 2 }
      else { d with fill_ := d.fill_ * 2 } := by
  unfold Dictionary.expand_
  by_cases hc : d.fill_ = 8 <;> simp [hc]

theorem uts_eq (d : Dictionary K V) :
    d.update_table_size_ =
      if 2 * d.fill_ < 3 * (d.used_ + 1) then
        ({ d with used_ := d.used_ + 1 } : Dictionary K V).expand_
      else { d with used_ := d.used_ + 1 } := rfl

theorem expand_fill (d : Dictionary K V) :
    d.expand_.fill_ = 2 * d.fill_ := by
  rw [expand_eq]; split <;> simp [mul_comm]

theorem expand_used (d : Dictionary K V) :
    d.expand_.used_ = d.used_ := by
  rw [expand_eq]; split <;> rfl

theorem uts_used (d : Dictionary K V) :
    d.update_table_size_.used_ = d.used_ + 1 := by
  rw [uts_eq]
  split
  · rw [expand_used]
  · rfl

theorem uts_fill (d : Dictionary K V) :
    d.update_table_size_.fill_ = d.fill_ ∨
      d.update_table_size_.fill_ = 2 * d.fill_ := by
  rw [uts_eq]
  split
  · right; rw [expand_fill]
  · left; rfl

theorem setTable_WF (d : Dictionary K V) (t : List (DictEntry K V))
    (h : d.WF) : (d.setTable t).WF := by
  obtain ⟨h1, h2⟩ := h
  unfold Dictionary.setTable
  split
  · exact ⟨h1, fun hf => h2 hf⟩
  · rename_i hgt
    exact ⟨h1, fun hf => absurd hf hgt⟩

theorem uts_WF (d : Dictionary K V) (h : d.WF) :
    d.update_table_size_.WF := by
  obtain ⟨h1, h2⟩ := h
  rw [uts_eq]
  split
  · rw [expand_eq]
    split
    · rename_i hf8
      replace hf8 : d.fill_ = 8 := hf8
      exact ⟨by simp [hf8], fun hle => by simp [hf8] at hle⟩
    · rename_i hf8
      replace hf8 : ¬ d.fill_ = 8 := hf8
      have hgt : (8 : Int) < d.fill_ := lt_of_le_of_ne h1 (fun h => hf8 h.symm)
      exact ⟨by simp; linarith, fun hle => by simp at hle; linarith⟩
  · exact ⟨h1, h2⟩

/-- While the container is well-formed, `_update_table_size` does not change
what the `table` property returns (growth relocates the active slots into
`_table` exactly when it flips the property to `_table`). -/
theorem uts_table (d : Dictionary K V) (h : d.WF) :
    d.update_table_size_.table = d.table := by
  obtain ⟨h1, h2⟩ := h
  rw [uts_eq]
  split
  · rw [expand_eq]
    split
    · rename_i hf8
      replace hf8 : d.fill_ = 8 := hf8
      have ht : d.table_ = [] := h2 (le_of_eq hf8)
      unfold Dictionary.table
      simp [hf8, ht]
    · rename_i hf8
      replace hf8 : ¬ d.fill_ = 8 := hf8
      have hgt : (8 : Int) < d.fill_ := lt_of_le_of_ne h1 (fun h => hf8 h.symm)
      unfold Dictionary.table
      have hn1 : ¬ d.fill_ ≤ 8 := not_le.mpr hgt
      have hn2 : ¬ d.fill_ * 2 ≤ 8 := not_le.mpr (by linarith)
      simp [hn1, hn2]
  · rfl

theorem empty_WF : (Dictionary.empty : Dictionary K V).WF := by
  exact ⟨le_refl 8, fun _ => rfl⟩

theorem setItem_eq (d : Dictionary K V) (k : K) (v : V) :
    d.setItem ctx k v =
      match updateValue (ctx.hsh k) v d.table with
      | some t => d.setTable t
      | none =>
        match replaceDummy (mkEntry ctx k v) d.table with
        | some t => (d.setTable t).update_table_size_
        | none =>
          (d.setTable (d.table ++ [mkEntry ctx k v])).update_table_size_ := rfl

theorem setItem_WF (d : Dictionary K V) (k : K) (v : V) (h : d.WF) :
    (d.setItem ctx k v).WF := by
  rw [setItem_eq]
  cases hu : updateValue (ctx.hsh k) v d.table with
  | some t => exact setTable_WF _ _ h
  | none =>
    cases hr : replaceDummy (mkEntry ctx k v) d.table with
    | some t => exact uts_WF _ (setTable_WF _ _ h)
    | none => exact uts_WF _ (setTable_WF _ _ h)

theorem usedAdjust_WF (d : Dictionary K V) (t : List (DictEntry K V)) (u : Int)
    (h : d.WF) : ({ d.setTable t with used_ := u } : Dictionary K V).WF := by
  obtain ⟨h1, h2⟩ := h
  unfold Dictionary.setTable
  split
  · exact ⟨h1, fun hf => h2 hf⟩
  · rename_i hgt
    exact ⟨h1, fun hf => absurd hf hgt⟩

theorem step_WF (d : Dictionary K V) (op : Op K V) (h : d.WF) :
    (step ctx d op).WF := by
  cases op with
  | set k v => exact setItem_WF ctx d k v h
  | get k dv => exact h
  | del k =>
    show (match d.delItem ctx k with | .ok d2 => d2 | .error _ => d).WF
    unfold Dictionary.delItem
    cases hd : delHash (DUMMY ctx) (ctx.hsh k) d.table with
    | none => simpa [hd] using h
    | some t => simpa [hd] using usedAdjust_WF d t (d.used_ - 1) h
  | clear => exact ⟨le_refl 8, fun _ => rfl⟩

theorem run_WF (ops : List (Op K V)) (d : Dictionary K V) (h : d.WF) :
    (run ctx d ops).WF := by
  induction ops generalizing d with
  | nil => exact h
  | cons op ops ih => exact ih _ (step_WF ctx d op h)

theorem Reachable.WF {ctx : PyCtx K V} {d : Dictionary K V}
    (h : Reachable ctx d) : d.WF := by
  obtain ⟨ops, hops⟩ := h
  subst hops
  exact run_WF ctx ops _ empty_WF

theorem updateValue_none_iff (h : Int) (v : V) (l : List (DictEntry K V)) :
    updateValue h v l = none ↔ ∀ e ∈ l, e.hash ≠ h := by
  induction l with
  | nil => simp [updateValue]
  | cons e es ih =>
    by_cases he : e.hash = h
    · simp [updateValue, he]
    · simp [updateValue, he, ih]

theorem updateValue_some_lookup (h : Int) (v : V)
    {l t : List (DictEntry K V)} (hu : updateValue h v l = some t) :
    lookupHash h t = some v := by
  induction l generalizing t with
  | nil => simp [updateValue] at hu
  | cons e es ih =>
    by_cases he : e.hash = h
    · simp [updateValue, he] at hu
      subst hu
      simp [lookupHash, he]
    · simp [updateValue, he] at hu
      obtain ⟨t', ht', rfl⟩ := hu
      simp [lookupHash, he, ih ht']

theorem replaceDummy_some_lookup (h : Int) {ne : DictEntry K V}
    {l t : List (DictEntry K V)} (hr : replaceDummy ne l = some t)
    (hmiss : ∀ e ∈ l, e.hash ≠ h) (hne : ne.hash = h) :
    lookupHash h t = some ne.value := by
  induction l generalizing t with
  | nil => simp [replaceDummy] at hr
  | cons e es ih =>
    by_cases hd : e.isDUMMY
    · simp [replaceDummy, hd] at hr
      subst hr
      simp [lookupHash, hne]
    · simp [replaceDummy, hd] at hr
      obtain ⟨t', ht', rfl⟩ := hr
      have he : e.hash ≠ h := hmiss e (List.mem_cons_self e es)
      have : ∀ x ∈ es, x.hash ≠ h := fun x hx => hmiss x (List.mem_cons_of_mem e hx)
      simp [lookupHash, he, ih ht' this]

theorem lookupHash_append (h : Int) (l1 l2 : List (DictEntry K V))
    (hmiss : ∀ e ∈ l1, e.hash ≠ h) :
    lookupHash h (l1 ++ l2) = lookupHash h l2 := by
  induction l1 with
  | nil => rfl
  | cons e es ih =>
    have he : e.hash ≠ h := hmiss e (List.mem_cons_self e es)
    simp [lookupHash, he, ih (fun x hx => hmiss x (List.mem_cons_of_mem e hx))]

theorem lookupHash_none (h : Int) (l : List (DictEntry K V))
    (hmiss : ∀ e ∈ l, e.hash ≠ h) : lookupHash h l = none := by
  induction l with
  | nil => rfl
  | cons e es ih =>
    have he : e.hash ≠ h := hmiss e (List.mem_cons_self e es)
    simp [lookupHash, he, ih (fun x hx => hmiss x (List.mem_cons_of_mem e hx))]

theorem exists_first_hash (h : Int) (l : List (DictEntry K V))
    (hex : ∃ e ∈ l, e.hash = h) :
    ∃ l1 e l2, l = l1 ++ e :: l2 ∧ (∀ x ∈ l1, x.hash ≠ h) ∧ e.hash = h := by
  induction l with
  | nil => simp at hex
  | cons a as ih =>
    by_cases ha : a.hash = h
    · exact ⟨[], a, as, rfl, by simp, ha⟩
    · have hex' : ∃ e ∈ as, e.hash = h := by
        obtain ⟨e, he, heh⟩ := hex
        rcases List.mem_cons.mp he with rfl | hmem
        · exact absurd heh ha
        · exact ⟨e, hmem, heh⟩
      obtain ⟨l1, e, l2, hl, hclean, heh⟩ := ih hex'
      exact ⟨a :: l1, e, l2, by simp [hl], by
        intro x hx
        rcases List.mem_cons.mp hx with rfl | hmem
        · exact ha
        · exact hclean x hmem, heh⟩

theorem updateValue_first (h : Int) (v : V) (l1 : List (DictEntry K V))
    (e : DictEntry K V) (l2 : List (DictEntry K V))
    (hclean : ∀ x ∈ l1, x.hash ≠ h) (he : e.hash = h) :
    updateValue h v (l1 ++ e :: l2) =
      some (l1 ++ { e with value := v } :: l2) := by
  induction l1 with
  | nil => simp [updateValue, he]
  | cons a as ih =>
    have ha : a.hash ≠ h := hclean a (List.mem_cons_self a as)
    simp [updateValue, ha, ih (fun x hx => hclean x (List.mem_cons_of_mem a hx))]

theorem delHash_first (dummy : DictEntry K V) (h : Int)
    (l1 : List (DictEntry K V)) (e : DictEntry K V)
    (l2 : List (DictEntry K V))
    (hclean : ∀ x ∈ l1, x.hash ≠ h) (he : e.hash = h) :
    delHash dummy h (l1 ++ e :: l2) = some (l1 ++ dummy :: l2) := by
  induction l1 with
  | nil => simp [delHash, he]
  | cons a as ih =>
    have ha : a.hash ≠ h := hclean a (List.mem_cons_self a as)
    simp [delHash, ha, ih (fun x hx => hclean x (List.mem_cons_of_mem a hx))]

theorem delHash_none_iff (dummy : DictEntry K V) (h : Int)
    (l : List (DictEntry K V)) :
    delHash dummy h l = none ↔ ∀ e ∈ l, e.hash ≠ h := by
  induction l with
  | nil => simp [delHash]
  | cons e es ih =>
    by_cases he : e.hash = h
    · simp [delHash, he]
    · simp [delHash, he, ih]

theorem delHash_length (dummy : DictEntry K V) (h : Int)
    {l t : List (DictEntry K V)} (hd : delHash dummy h l = some t) :
    t.length = l.length := by
  induction l generalizing t with
  | nil => simp [delHash] at hd
  | cons e es ih =>
    by_cases he : e.hash = h
    · simp [delHash, he] at hd
      subst hd
      simp
    · simp [delHash, he] at hd
      obtain ⟨t', ht', rfl⟩ := hd
      simp [ih ht']

theorem usedAdjust_table (d : Dictionary K V) (t : List (DictEntry K V))
    (u : Int) : ({ d.setTable t with used_ := u } : Dictionary K V).table = t := by
  unfold Dictionary.setTable Dictionary.table
  split <;> simp_all

end Lemmas

/-- C3: when no stored hash in the active store matches `hash(k)`,
`get(c, k, default)` returns the default exactly when the default is truthy
and signals `KeyError` otherwise (including when no default was supplied,
the implicit `None` being falsy); and a lookup never mutates the container. -/
theorem get_miss_default (ctx : PyCtx K V) (d : Dictionary K V) (k : K)
    (default : Option V)
    (hmiss : ∀ e ∈ d.table, e.hash ≠ ctx.hsh k) :
    d.get ctx k default =
      (match default with
       | some dv => if ctx.truthy dv then .ok dv else .error k
       | none => .error k) ∧
    step ctx d (Op.get k default) = d := by
  refine ⟨?_, rfl⟩
  unfold Dictionary.get Dictionary.getItem
  rw [lookupHash_none _ _ hmiss]

/-- C3 witness: a missing key against a one-entry container, with a truthy
default. -/
theorem get_miss_default_witness :
    (∀ e ∈ (Dictionary.empty.setItem ctx0 1 10).table, e.hash ≠ ctx0.hsh 2) ∧
      (Dictionary.empty.setItem ctx0 1 10).get ctx0 2 (some 7) = .ok 7 :=
  ⟨by decide,
    ((get_miss_default ctx0 (Dictionary.empty.setItem ctx0 1 10) 2 (some 7)
      (by decide)).1).trans rfl⟩

/-- C4: `delete(c, k)` replaces the first active-store slot whose stored hash
equals `hash(k)` with the sentinel and decrements `used` by one; if no slot
matches it signals `KeyError` leaving the state untouched; and a successful
deletion never shrinks the active store. -/
theorem delete_behavior (ctx : PyCtx K V) (d : Dictionary K V) (k : K) :
    (∀ l1 e l2, d.table = l1 ++ e :: l2 →
        (∀ x ∈ l1, x.hash ≠ ctx.hsh k) → e.hash = ctx.hsh k →
        d.delItem ctx k =
          .ok { d.setTable (l1 ++ DUMMY ctx :: l2) with used_ := d.used_ - 1 }) ∧
    ((∀ e ∈ d.table, e.hash ≠ ctx.hsh k) →
        d.delItem ctx k = .error k ∧ step ctx d (Op.del k) = d) ∧
    (∀ d2, d.delItem ctx k = .ok d2 → d2.table.length = d.table.length) := by
  refine ⟨?_, ?_, ?_⟩
  · intro l1 e l2 hta hclean he
    unfold Dictionary.delItem
    rw [hta, delHash_first (DUMMY ctx) (ctx.hsh k) l1 e l2 hclean he]
  · intro hmiss
    have hd : delHash (DUMMY ctx) (ctx.hsh k) d.table = none :=
      (delHash_none_iff _ _ _).mpr hmiss
    constructor
    · unfold Dictionary.delItem
      rw [hd]
    · show (match d.delItem ctx k with | .ok d2 => d2 | .error _ => d) = d
      unfold Dictionary.delItem
      rw [hd]
  · intro d2 hok
    unfold Dictionary.delItem at hok
    cases hd : delHash (DUMMY ctx) (ctx.hsh k) d.table with
    | none => rw [hd] at hok; exact absurd hok (by simp)
    | some t =>
      rw [hd] at hok
      have : d2 = { d.setTable t with used_ := d.used_ - 1 } := by
        simpa using hok.symm
      subst this
      rw [usedAdjust_table]
      exact delHash_length (DUMMY ctx) (ctx.hsh k) hd

/-- C4 witness: deleting the only key of a one-entry container tombstones
its slot and decrements `used`. -/
theorem delete_behavior_witness :
    (Dictionary.empty.setItem ctx0 1 10).delItem ctx0 1 =
      .ok { (Dictionary.empty.setItem ctx0 1 10).setTable
              ([] ++ DUMMY ctx0 :: []) with
            used_ := (Dictionary.empty.setItem ctx0 1 10).used_ - 1 } :=
  (delete_behavior ctx0 (Dictionary.empty.setItem ctx0 1 10) 1).1
    [] (mkEntry ctx0 1 10) [] (by decide) (by decide) (by decide)

/-- C5: when some active-store entry's hash equals `hash(k)`,
`set(c, k, v2)` overwrites in place the value of the first such entry and
changes nothing else — `used`, `fill`, `len` and the store length are
unchanged — and a subsequent `get(c, k)` returns `v2`. -/
theorem update_in_place (ctx : PyCtx K V) (d : Dictionary K V) (k : K)
    (v2 : V) (hhit : ∃ e ∈ d.table, e.hash = ctx.hsh k) :
    (d.setItem ctx k v2).used_ = d.used_ ∧
    (d.setItem ctx k v2).fill_ = d.fill_ ∧
    (d.setItem ctx k v2).len = d.len ∧
    (d.setItem ctx k v2).table.length = d.table.length ∧
    (d.setItem ctx k v2).getItem ctx k none = .ok v2 ∧
    (∀ l1 e l2, d.table = l1 ++ e :: l2 →
      (∀ x ∈ l1, x.hash ≠ ctx.hsh k) → e.hash = ctx.hsh k →
      (d.setItem ctx k v2).table = l1 ++ { e with value := v2 } :: l2) := by
  obtain ⟨l1, e, l2, hta, hclean, he⟩ := exists_first_hash (ctx.hsh k) d.table hhit
  have hu : updateValue (ctx.hsh k) v2 d.table =
      some (l1 ++ { e with value := v2 } :: l2) := by
    rw [hta]; exact updateValue_first _ _ l1 e l2 hclean he
  have hset : d.setItem ctx k v2 = d.setTable (l1 ++ { e with value := v2 } :: l2) := by
    rw [setItem_eq, hu]
  refine ⟨?_, ?_, ?_, ?_, ?_, ?_⟩
  · rw [hset, setTable_used]
  · rw [hset, setTable_fill]
  · show (d.setItem ctx k v2).used_ = d.used_
    rw [hset, setTable_used]
  · rw [hset, setTable_table, hta]
    simp
  · unfold Dictionary.getItem
    rw [hset, setTable_table, updateValue_some_lookup (ctx.hsh k) v2 hu]
  · intro l1' e' l2' hta' hclean' he'
    have hu' : updateValue (ctx.hsh k) v2 d.table =
        some (l1' ++ { e' with value := v2 } :: l2') := by
      rw [hta']; exact updateValue_first _ _ l1' e' l2' hclean' he'
    rw [setItem_eq, hu', setTable_table]

/-- C5 witness: updating the only key of a one-entry container. -/
theorem update_in_place_witness :
    (∃ e ∈ (Dictionary.empty.setItem ctx0 1 10).table, e.hash = ctx0.hsh 1) ∧
      ((Dictionary.empty.setItem ctx0 1 10).setItem ctx0 1 20).used_ =
        (Dictionary.empty.setItem ctx0 1 10).used_ ∧
      ((Dictionary.empty.setItem ctx0 1 10).setItem ctx0 1 20).getItem ctx0 1
          none = .ok 20 :=
  ⟨⟨mkEntry ctx0 1 10, by decide, by decide⟩,
    (update_in_place ctx0 (Dictionary.empty.setItem ctx0 1 10) 1 20
      ⟨mkEntry ctx0 1 10, by decide, by decide⟩).1,
    (update_in_place ctx0 (Dictionary.empty.setItem ctx0 1 10) 1 20
      ⟨mkEntry ctx0 1 10, by decide, by decide⟩).2.2.2.2.1⟩

/-- C2: from a freshly created container (`fill = 8`, empty), inserting six
new keys with pairwise distinct hashes (distinct keys, in the only sense the
hash-matching store can distinguish them) promotes the container
(`Promoted` state, `fill = 16`), while inserting only five leaves it
`Inline` with `fill` still 8. -/
theorem growth_threshold (ctx : PyCtx K V)
    (k1 k2 k3 k4 k5 k6 : K) (v1 v2 v3 v4 v5 v6 : V)
    (h12 : ctx.hsh k1 ≠ ctx.hsh k2) (h13 : ctx.hsh k1 ≠ ctx.hsh k3)
    (h14 : ctx.hsh k1 ≠ ctx.hsh k4) (h15 : ctx.hsh k1 ≠ ctx.hsh k5)
    (h16 : ctx.hsh k1 ≠ ctx.hsh k6) (h23 : ctx.hsh k2 ≠ ctx.hsh k3)
    (h24 : ctx.hsh k2 ≠ ctx.hsh k4) (h25 : ctx.hsh k2 ≠ ctx.hsh k5)
    (h26 : ctx.hsh k2 ≠ ctx.hsh k6) (h34 : ctx.hsh k3 ≠ ctx.hsh k4)
    (h35 : ctx.hsh k3 ≠ ctx.hsh k5) (h36 : ctx.hsh k3 ≠ ctx.hsh k6)
    (h45 : ctx.hsh k4 ≠ ctx.hsh k5) (h46 : ctx.hsh k4 ≠ ctx.hsh k6)
    (h56 : ctx.hsh k5 ≠ ctx.hsh k6) :
    (run ctx Dictionary.empty
        [Op.set k1 v1, Op.set k2 v2, Op.set k3 v3, Op.set k4 v4,
         Op.set k5 v5, Op.set k6 v6]).fill_ = 16 ∧
    (run ctx Dictionary.empty
        [Op.set k1 v1, Op.set k2 v2, Op.set k3 v3, Op.set k4 v4,
         Op.set k5 v5, Op.set k6 v6]).state = DictState.Promoted ∧
    (run ctx Dictionary.empty
        [Op.set k1 v1, Op.set k2 v2, Op.set k3 v3, Op.set k4 v4,
         Op.set k5 v5]).fill_ = 8 ∧
    (run ctx Dictionary.empty
        [Op.set k1 v1, Op.set k2 v2, Op.set k3 v3, Op.set k4 v4,
         Op.set k5 v5]).state = DictState.Inline := by
  simp [run, step, Dictionary.setItem, Dictionary.empty, Dictionary.table,
    Dictionary.setTable, Dictionary.update_table_size_, Dictionary.expand_,
    updateValue, replaceDummy, mkEntry, Dictionary.state,
    h12, h13, h14, h15, h16, h23, h24, h25, h26, h34, h35, h36, h45, h46, h56]

/-- C2 witness: integer keys 1..6 with the identity hash. -/
theorem growth_threshold_witness :
    ctx0.hsh 1 ≠ ctx0.hsh 2 ∧
      (run ctx0 Dictionary.empty
          [Op.set 1 10, Op.set 2 20, Op.set 3 30, Op.set 4 40,
           Op.set 5 50, Op.set 6 60]).fill_ = 16 ∧
      (run ctx0 Dictionary.empty
          [Op.set 1 10, Op.set 2 20, Op.set 3 30, Op.set 4 40,
           Op.set 5 50, Op.set 6 60]).state = DictState.Promoted ∧
      (run ctx0 Dictionary.empty
          [Op.set 1 10, Op.set 2 20, Op.set 3 30, Op.set 4 40,
           Op.set 5 50]).fill_ = 8 ∧
      (run ctx0 Dictionary.empty
          [Op.set 1 10, Op.set 2 20, Op.set 3 30, Op.set 4 40,
           Op.set 5 50]).state = DictState.Inline :=
  ⟨by decide,
    growth_threshold ctx0 1 2 3 4 5 6 10 20 30 40 50 60
      (by decide) (by decide) (by decide) (by decide) (by decide) (by decide)
      (by decide) (by decide) (by decide) (by decide) (by decide) (by decide)
      (by decide) (by decide) (by decide)⟩

section StepFill

variable (ctx : PyCtx K V)

theorem setTable_small_of_big (d : Dictionary K V)
    (t : List (DictEntry K V)) (h : ¬ d.fill_ ≤ 8) :
    (d.setTable t).small_table_ = d.small_table_ := by
  unfold Dictionary.setTable
  simp [h]

theorem uts_small_of_big (d : Dictionary K V) (h : 8 < d.fill_) :
    d.update_table_size_.small_table_ = d.small_table_ ∧
      8 < d.update_table_size_.fill_ := by
  rw [uts_eq]
  split
  · rw [expand_eq]
    split
    · rename_i hf8
      replace hf8 : d.fill_ = 8 := hf8
      omega
    · exact ⟨rfl, by simp; linarith⟩
  · exact ⟨rfl, h⟩

theorem setItem_fill (d : Dictionary K V) (k : K) (v : V) :
    (d.setItem ctx k v).fill_ = d.fill_ ∨
      (d.setItem ctx k v).fill_ = 2 * d.fill_ := by
  rw [setItem_eq]
  cases hu : updateValue (ctx.hsh k) v d.table with
  | some t => left; exact setTable_fill d t
  | none =>
    cases hr : replaceDummy (mkEntry ctx k v) d.table with
    | some t =>
      rcases uts_fill (d.setTable t) with h | h <;> rw [h, setTable_fill]
      · exact Or.inl rfl
      · exact Or.inr rfl
    | none =>
      rcases uts_fill (d.setTable (d.table ++ [mkEntry ctx k v])) with h | h <;>
        rw [h, setTable_fill]
      · exact Or.inl rfl
      · exact Or.inr rfl

theorem step_fill (d : Dictionary K V) (op : Op K V) (hop : op ≠ Op.clear) :
    (step ctx d op).fill_ = d.fill_ ∨ (step ctx d op).fill_ = 2 * d.fill_ := by
  cases op with
  | set k v => exact setItem_fill ctx d k v
  | get k dv => exact Or.inl rfl
  | del k =>
    show (match d.delItem ctx k with | .ok d2 => d2 | .error _ => d).fill_ = _ ∨ _
    unfold Dictionary.delItem
    cases hd : delHash (DUMMY ctx) (ctx.hsh k) d.table with
    | none => exact Or.inl rfl
    | some t =>
      left
      show ({ d.setTable t with used_ := d.used_ - 1 } : Dictionary K V).fill_ = _
      rw [show ({ d.setTable t with used_ := d.used_ - 1 } :
        Dictionary K V).fill_ = (d.setTable t).fill_ from rfl, setTable_fill]
  | clear => exact absurd rfl hop

theorem setItem_small_of_big (d : Dictionary K V) (k : K) (v : V)
    (h : 8 < d.fill_) :
    (d.setItem ctx k v).small_table_ = d.small_table_ ∧
      8 < (d.setItem ctx k v).fill_ := by
  have hb : ¬ d.fill_ ≤ 8 := not_le.mpr h
  rw [setItem_eq]
  cases hu : updateValue (ctx.hsh k) v d.table with
  | some t =>
    refine ⟨setTable_small_of_big d t hb, ?_⟩
    rw [setTable_fill]; exact h
  | none =>
    have key : ∀ t : List (DictEntry K V),
        ((d.setTable t).update_table_size_).small_table_ = d.small_table_ ∧
          8 < ((d.setTable t).update_table_size_).fill_ := by
      intro t
      have h2 : 8 < (d.setTable t).fill_ := by rw [setTable_fill]; exact h
      have := uts_small_of_big (d.setTable t) h2
      exact ⟨this.1.trans (setTable_small_of_big d t hb), this.2⟩
    cases hr : replaceDummy (mkEntry ctx k v) d.table with
    | some t => exact key t
    | none => exact key _

end StepFill

/-- C6: the first growth (`fill == 8`) copies every slot of the inline store
— sentinels included — into the promoted store in the original order,
appended after any existing promoted slots, and empties the inline store;
a non-first growth moves no slots; every growth exactly doubles `fill`;
and once the container is promoted (`fill > 8`), no operation except
`clear` ever touches the inline store again, so promotion happens at most
once per container lifetime. -/
theorem expand_and_promotion (ctx : PyCtx K V) (d : Dictionary K V) :
    d.expand_.fill_ = 2 * d.fill_ ∧
    (d.fill_ = 8 →
      d.expand_.table_ = d.table_ ++ d.small_table_ ∧
        d.expand_.small_table_ = []) ∧
    (d.fill_ ≠ 8 →
      d.expand_.table_ = d.table_ ∧
        d.expand_.small_table_ = d.small_table_) ∧
    (∃ l, d.expand_.table_ = d.table_ ++ l) ∧
    (∀ op : Op K V, 8 < d.fill_ → op ≠ Op.clear →
      8 < (step ctx d op).fill_ ∧
        (step ctx d op).small_table_ = d.small_table_) := by
  refine ⟨expand_fill d, ?_, ?_, ?_, ?_⟩
  · intro h8
    rw [expand_eq]
    simp [h8]
  · intro h8
    rw [expand_eq]
    simp [h8]
  · rw [expand_eq]
    split
    · exact ⟨d.small_table_, rfl⟩
    · exact ⟨[], by simp⟩
  · intro op hbig hop
    cases op with
    | set k v =>
      have := setItem_small_of_big ctx d k v hbig
      exact ⟨this.2, this.1⟩
    | get k dv => exact ⟨hbig, rfl⟩
    | del k =>
      have hb : ¬ d.fill_ ≤ 8 := not_le.mpr hbig
      show (8 : Int) < (match d.delItem ctx k with
          | .ok d2 => d2 | .error _ => d).fill_ ∧
        (match d.delItem ctx k with
          | .ok d2 => d2 | .error _ => d).small_table_ = d.small_table_
      unfold Dictionary.delItem
      cases hd : delHash (DUMMY ctx) (ctx.hsh k) d.table with
      | none => exact ⟨hbig, rfl⟩
      | some t =>
        refine ⟨?_, ?_⟩
        · show 8 < ({ d.setTable t with used_ := d.used_ - 1 } :
            Dictionary K V).fill_
          rw [show ({ d.setTable t with used_ := d.used_ - 1 } :
            Dictionary K V).fill_ = (d.setTable t).fill_ from rfl, setTable_fill]
          exact hbig
        · show ({ d.setTable t with used_ := d.used_ - 1 } :
            Dictionary K V).small_table_ = _
          rw [show ({ d.setTable t with used_ := d.used_ - 1 } :
            Dictionary K V).small_table_ = (d.setTable t).small_table_ from rfl]
          exact setTable_small_of_big d t hb
    | clear => exact absurd rfl hop

/-- C6 witness: expanding a promoted-shape container with `fill = 16`
doubles `fill` to 32 and moves nothing. -/
theorem expand_and_promotion_witness :
    (⟨1, 16, [], [mkEntry ctx0 1 10]⟩ : Dictionary Int Int).expand_.fill_ =
        2 * 16 ∧
      (⟨1, 16, [], [mkEntry ctx0 1 10]⟩ :
          Dictionary Int Int).expand_.table_ = [mkEntry ctx0 1 10] ∧
      8 < (step ctx0 (⟨1, 16, [], [mkEntry ctx0 1 10]⟩ : Dictionary Int Int)
          (Op.get 1 none)).fill_ :=
  ⟨(expand_and_promotion ctx0 ⟨1, 16, [], [mkEntry ctx0 1 10]⟩).1,
    by
      have h := (expand_and_promotion ctx0
        (⟨1, 16, [], [mkEntry ctx0 1 10]⟩ : Dictionary Int Int)).2.2.1
        (by decide)
      simpa using h.1,
    ((expand_and_promotion ctx0 ⟨1, 16, [], [mkEntry ctx0 1 10]⟩).2.2.2.2
      (Op.get 1 none) (by decide) (by decide)).1⟩

/-- A slot that holds (by identity) the shared sentinel still carries the
fields the sentinel was constructed with at module initialization; this is
what "the sentinel is never mutated" means observationally, since the only
field writes the code performs on existing entries go through slots. -/
def sentinelOK (ctx : PyCtx K V) (d : Dictionary K V) : Prop :=
  ∀ e : DictEntry K V, (e ∈ d.small_table_ ∨ e ∈ d.table_) →
    e.isDUMMY = true → e = DUMMY ctx

section SentinelLemmas

variable (ctx : PyCtx K V)

theorem mem_updateValue (h : Int) (v : V) {l t : List (DictEntry K V)}
    (hu : updateValue h v l = some t) :
    ∀ x ∈ t, x ∈ l ∨ ∃ e ∈ l, e.hash = h ∧ x = { e with value := v } := by
  induction l generalizing t with
  | nil => simp [updateValue] at hu
  | cons e es ih =>
    by_cases he : e.hash = h
    · simp [updateValue, he] at hu
      subst hu
      intro x hx
      rcases List.mem_cons.mp hx with rfl | hmem
      · exact Or.inr ⟨e, List.mem_cons_self e es, he, by rw [he]⟩
      · exact Or.inl (List.mem_cons_of_mem e hmem)
    · simp [updateValue, he] at hu
      obtain ⟨t', ht', rfl⟩ := hu
      intro x hx
      rcases List.mem_cons.mp hx with rfl | hmem
      · exact Or.inl (List.mem_cons_self x es)
      · rcases ih ht' x hmem with h1 | ⟨e', he', heh, hx'⟩
        · exact Or.inl (List.mem_cons_of_mem e h1)
        · exact Or.inr ⟨e', List.mem_cons_of_mem e he', heh, hx'⟩

theorem mem_replaceDummy {ne : DictEntry K V} {l t : List (DictEntry K V)}
    (hr : replaceDummy ne l = some t) : ∀ x ∈ t, x ∈ l ∨ x = ne := by
  induction l generalizing t with
  | nil => simp [replaceDummy] at hr
  | cons e es ih =>
    by_cases hd : e.isDUMMY
    · simp [replaceDummy, hd] at hr
      subst hr
      intro x hx
      rcases List.mem_cons.mp hx with rfl | hmem
      · exact Or.inr rfl
      · exact Or.inl (List.mem_cons_of_mem e hmem)
    · simp [replaceDummy, hd] at hr
      obtain ⟨t', ht', rfl⟩ := hr
      intro x hx
      rcases List.mem_cons.mp hx with rfl | hmem
      · exact Or.inl (List.mem_cons_self x es)
      · rcases ih ht' x hmem with h1 | h1
        · exact Or.inl (List.mem_cons_of_mem e h1)
        · exact Or.inr h1

theorem mem_delHash {dummy : DictEntry K V} {h : Int}
    {l t : List (DictEntry K V)} (hd : delHash dummy h l = some t) :
    ∀ x ∈ t, x ∈ l ∨ x = dummy := by
  induction l generalizing t with
  | nil => simp [delHash] at hd
  | cons e es ih =>
    by_cases he : e.hash = h
    · simp [delHash, he] at hd
      subst hd
      intro x hx
      rcases List.mem_cons.mp hx with rfl | hmem
      · exact Or.inr rfl
      · exact Or.inl (List.mem_cons_of_mem e hmem)
    · simp [delHash, he] at hd
      obtain ⟨t', ht', rfl⟩ := hd
      intro x hx
      rcases List.mem_cons.mp hx with rfl | hmem
      · exact Or.inl (List.mem_cons_self x es)
      · rcases ih ht' x hmem with h1 | h1
        · exact Or.inl (List.mem_cons_of_mem e h1)
        · exact Or.inr h1

theorem mem_table (d : Dictionary K V) :
    ∀ x ∈ d.table, x ∈ d.small_table_ ∨ x ∈ d.table_ := by
  unfold Dictionary.table
  split
  · exact fun x hx => Or.inl hx
  · exact fun x hx => Or.inr hx

theorem sentinelOK_setTable (d : Dictionary K V) (t : List (DictEntry K V))
    (h : sentinelOK ctx d)
    (ht : ∀ x ∈ t, x.isDUMMY = true → x = DUMMY ctx) :
    sentinelOK ctx (d.setTable t) := by
  intro e he hd
  by_cases hc : d.fill_ ≤ 8 <;> simp [Dictionary.setTable, hc] at he
  · rcases he with h1 | h1
    · exact ht e h1 hd
    · exact h e (Or.inr h1) hd
  · rcases he with h1 | h1
    · exact h e (Or.inl h1) hd
    · exact ht e h1 hd

theorem expand_mem (d : Dictionary K V) (e : DictEntry K V)
    (he : e ∈ d.expand_.small_table_ ∨ e ∈ d.expand_.table_) :
    e ∈ d.small_table_ ∨ e ∈ d.table_ := by
  rw [expand_eq] at he
  by_cases hc : d.fill_ = 8 <;> simp [hc] at he <;> tauto

theorem sentinelOK_uts (d : Dictionary K V) (h : sentinelOK ctx d) :
    sentinelOK ctx d.update_table_size_ := by
  intro e he hd
  rw [uts_eq] at he
  by_cases hc : 2 * d.fill_ < 3 * (d.used_ + 1) <;> simp [hc] at he
  · exact h e (expand_mem { d with used_ := d.used_ + 1 } e he) hd
  · exact h e he hd

theorem sentinelOK_setItem (d : Dictionary K V) (k : K) (v : V)
    (hk : ctx.hsh k ≠ ctx.hsh ctx.dkey) (h : sentinelOK ctx d) :
    sentinelOK ctx (d.setItem ctx k v) := by
  rw [setItem_eq]
  cases hu : updateValue (ctx.hsh k) v d.table with
  | some t =>
    apply sentinelOK_setTable ctx d t h
    intro x hx hxd
    rcases mem_updateValue (ctx.hsh k) v hu x hx with hmem | ⟨e, hel, heh, rfl⟩
    · exact h x (mem_table d x hmem) hxd
    · have hED : e = DUMMY ctx := h e (mem_table d e hel) hxd
      exact absurd (by rw [← heh, hED]; rfl) hk
  | none =>
    cases hr : replaceDummy (mkEntry ctx k v) d.table with
    | some t =>
      apply sentinelOK_uts
      apply sentinelOK_setTable ctx d t h
      intro x hx hxd
      rcases mem_replaceDummy hr x hx with hmem | rfl
      · exact h x (mem_table d x hmem) hxd
      · exact absurd hxd (by simp [mkEntry])
    | none =>
      apply sentinelOK_uts
      apply sentinelOK_setTable ctx d _ h
      intro x hx hxd
      rcases List.mem_append.mp hx with hmem | hx1
      · exact h x (mem_table d x hmem) hxd
      · rw [List.mem_singleton.mp hx1] at hxd
        exact absurd hxd (by simp [mkEntry])

theorem sentinelOK_step (d : Dictionary K V) (op : Op K V)
    (hop : ∀ k v, op = Op.set k v → ctx.hsh k ≠ ctx.hsh ctx.dkey)
    (h : sentinelOK ctx d) : sentinelOK ctx (step ctx d op) := by
  cases op with
  | set k v => exact sentinelOK_setItem ctx d k v (hop k v rfl) h
  | get k dv => exact h
  | del k =>
    show sentinelOK ctx
      (match d.delItem ctx k with | .ok d2 => d2 | .error _ => d)
    unfold Dictionary.delItem
    cases hd : delHash (DUMMY ctx) (ctx.hsh k) d.table with
    | none => exact h
    | some t =>
      show sentinelOK ctx { d.setTable t with used_ := d.used_ - 1 }
      have hOK : sentinelOK ctx (d.setTable t) := by
        apply sentinelOK_setTable ctx d t h
        intro x hx hxd
        rcases mem_delHash hd x hx with hmem | rfl
        · exact h x (mem_table d x hmem) hxd
        · rfl
      intro e he hdum
      exact hOK e he hdum
  | clear =>
    intro e he hdum
    rcases he with h1 | h1 <;> exact absurd h1 (List.not_mem_nil e)

theorem sentinelOK_empty : sentinelOK ctx (Dictionary.empty : Dictionary K V) := by
  intro e he hdum
  rcases he with h1 | h1 <;> exact absurd h1 (List.not_mem_nil e)

theorem sentinelOK_run (ops : List (Op K V)) :
    ∀ d : Dictionary K V,
      (∀ k v, Op.set k v ∈ ops → ctx.hsh k ≠ ctx.hsh ctx.dkey) →
      sentinelOK ctx d → sentinelOK ctx (run ctx d ops) := by
  induction ops with
  | nil => exact fun d _ h => h
  | cons op ops ih =>
    intro d hkeys h
    exact ih _ (fun k v hkv => hkeys k v (List.mem_cons_of_mem op hkv))
      (sentinelOK_step ctx d op
        (fun k v hkv =>
          hkeys k v (by rw [← hkv]; exact List.mem_cons_self op ops)) h)

end SentinelLemmas

/-- C7 counterexample: after `set 1 10; del 1; set 5 99` (with `hash` the
identity and the sentinel's key hashing to 5, the model of a user key whose
hash collides with `hash("Dummy123")`), the slot holding the shared
sentinel object carries value 99 — the first scan of `__setitem__` wrote
`entry.value = 99` on the sentinel itself, so the sentinel was mutated. -/
theorem sentinel_mutation_cex :
    (run ctx0 Dictionary.empty
        [Op.set 1 10, Op.del 1, Op.set 5 99]).small_table_ =
      [{ hash := 5, key := 5, value := 99, isDUMMY := true }] ∧
    ({ hash := 5, key := 5, value := 99, isDUMMY := true } :
        DictEntry Int Int) ≠ DUMMY ctx0 ∧
    ¬ sentinelOK ctx0
      (run ctx0 Dictionary.empty [Op.set 1 10, Op.del 1, Op.set 5 99]) := by
  refine ⟨by decide, by decide, fun hOK => ?_⟩
  have hmem : ({ hash := 5, key := 5, value := 99, isDUMMY := true } :
      DictEntry Int Int) ∈ (run ctx0 Dictionary.empty
        [Op.set 1 10, Op.del 1, Op.set 5 99]).small_table_ := by decide
  exact absurd (hOK _ (Or.inl hmem) rfl) (by decide)

/-- C7 amended: the sentinel entry is built once at module initialization
and is never mutated by any sequence of set/get/delete/clear calls *whose
`set` keys never hash to the sentinel key's hash*; a `set` with a colliding
key while a tombstone is in scan range does mutate it (see the
counterexample). -/
theorem sentinel_immutable_amended (ctx : PyCtx K V) (ops : List (Op K V))
    (hkeys : ∀ k v, Op.set k v ∈ ops → ctx.hsh k ≠ ctx.hsh ctx.dkey) :
    sentinelOK ctx (run ctx Dictionary.empty ops) :=
  sentinelOK_run ctx ops Dictionary.empty hkeys (sentinelOK_empty ctx)

/-- C7 amended witness: a set/delete sequence whose keys never hash to the
sentinel key's hash leaves every sentinel-held slot with its original
fields. -/
theorem sentinel_immutable_amended_witness :
    ctx0.hsh 1 ≠ ctx0.hsh ctx0.dkey ∧
      sentinelOK ctx0 (run ctx0 Dictionary.empty [Op.set 1 10, Op.del 1]) :=
  ⟨by decide,
    sentinel_immutable_amended ctx0 [Op.set 1 10, Op.del 1] (by
      intro k v hkv
      simp only [List.mem_cons, List.not_mem_nil, or_false] at hkv
      rcases hkv with hkv | hkv
      · cases hkv; decide
      · cases hkv)⟩

/-- The spec's words for display: a comma-separated sequence of
`key: value` pairs in store scan order (second definition, written from the
spec to compare against `strDict`, which is written from the code). -/
def specRender (rep : K → String) (repV : V → String) :
    List (DictEntry K V) → String
  | [] => ""
  | [e] => rep e.key ++ ": " ++ repV e.value
  | e :: es => rep e.key ++ ": " ++ repV e.value ++ ", " ++ specRender rep repV es

/-- The concatenation of the per-slot fragments of `__str__`. -/
def joinFrags (rep : K → String) (repV : V → String) :
    List (DictEntry K V) → String
  | [] => ""
  | e :: es => entryStr rep repV e ++ joinFrags rep repV es

section StrLemmas

variable (rep : K → String) (repV : V → String)

theorem foldl_entryStr (l : List (DictEntry K V)) :
    ∀ acc : String,
      l.foldl (fun output e => output ++ entryStr rep repV e) acc =
        acc ++ joinFrags rep repV l := by
  induction l with
  | nil =>
    intro acc
    show acc = acc ++ ""
    cases acc
    show String.mk _ = String.mk (_ ++ [])
    rw [List.append_nil]
  | cons e es ih =>
    intro acc
    show es.foldl _ (acc ++ entryStr rep repV e) = _
    rw [ih, String.append_assoc]
    rfl

theorem joinFrags_nonempty (e : DictEntry K V) (es : List (DictEntry K V)) :
    joinFrags rep repV (e :: es) = specRender rep repV (e :: es) ++ ", " := by
  induction es generalizing e with
  | nil => simp [joinFrags, specRender, entryStr, String.append_assoc]
  | cons e2 es2 ih =>
    show entryStr rep repV e ++ joinFrags rep repV (e2 :: es2) = _
    rw [ih e2]
    show _ = (rep e.key ++ ": " ++ repV e.value ++ ", " ++
      specRender rep repV (e2 :: es2)) ++ ", "
    simp [entryStr, String.append_assoc]

theorem pyDropLast2_comma (s : String) : pyDropLast2 (s ++ ", ") = s := by
  unfold pyDropLast2
  rw [String.data_append]
  show String.mk ((s.data ++ [',', ' ']).dropLast.dropLast) = s
  have h2 : s.data ++ [',', ' '] = (s.data ++ [',']) ++ [' '] := by simp
  rw [h2, List.dropLast_concat, List.dropLast_concat]

end StrLemmas

/-- C10 counterexample: an empty container renders as the one-character
string holding just the closing brace — the `output[:-2]` trim consumes the
opening brace — not as the two-character brace pair the claim states. -/
theorem empty_str_cex :
    Dictionary.strDict (fun n : Int => toString n) (fun n : Int => toString n)
        Dictionary.empty = "\x7d" ∧
      ("\x7d" : String) ≠ "\x7b\x7d" := ⟨rfl, by decide⟩

/-- C10 amended: `__str__` never fails; on a container whose active store is
nonempty it renders every slot of the active store (sentinel slots
included, not special-cased) as a brace-delimited, comma-separated sequence
of `key: value` pairs in scan order; but on an empty active store it
renders the single closing brace, not the two-character brace pair. -/
theorem str_rendering (rep : K → String) (repV : V → String)
    (d : Dictionary K V) :
    (d.table = [] → d.strDict rep repV = "\x7d") ∧
    (d.table ≠ [] →
      d.strDict rep repV =
        "\x7b" ++ specRender rep repV d.table ++ "\x7d") := by
  constructor
  · intro h
    unfold Dictionary.strDict
    rw [h]
    rfl
  · intro h
    unfold Dictionary.strDict
    rw [foldl_entryStr]
    obtain ⟨e, es, hes⟩ := List.exists_cons_of_ne_nil h
    rw [hes, joinFrags_nonempty, ← String.append_assoc, pyDropLast2_comma]

/-- C10 amended witness: a one-entry container renders as the brace-wrapped
pair list. -/
theorem str_rendering_witness :
    (Dictionary.empty.setItem ctx0 3 7).table ≠ [] ∧
      (Dictionary.empty.setItem ctx0 3 7).strDict
          (fun n : Int => toString n) (fun n : Int => toString n) =
        "\x7b" ++ specRender (fun n : Int => toString n)
            (fun n : Int => toString n)
            (Dictionary.empty.setItem ctx0 3 7).table ++ "\x7d" :=
  ⟨by decide,
    (str_rendering (fun n : Int => toString n) (fun n : Int => toString n)
      (Dictionary.empty.setItem ctx0 3 7)).2 (by decide)⟩

/-
Cross-instance model.  In the source, `_used`, `_fill`, `_small_table` and
`_table` are *class* attributes.  The two ints are only ever rebound through
`self.attr = ...`, which creates an instance attribute, so the class-level
ints stay `0` and `8` forever; the two lists, however, are mutated in place
through `self.table[i] = ...` / `.append(...)`, which writes to the class
list whenever the instance has not rebound the attribute (`_expand` and
`clear` are the only rebinders).  `PyClassState` holds the class lists;
`PyInstance` holds the per-instance attribute overrides (`none` = attribute
not set on the instance, reads fall through to the class).
-/

/-- The class-level `_small_table` and `_table` list objects. -/
structure PyClassState (K V : Type) where
  small_table : List (DictEntry K V)
  table : List (DictEntry K V)
deriving DecidableEq

/-- One instance's `__dict__`: attribute overrides created by `self.x = ...`. -/
structure PyInstance (K V : Type) where
  used : Option Int
  fill : Option Int
  small_table : Option (List (DictEntry K V))
  table : Option (List (DictEntry K V))
deriving DecidableEq

/-- The class lists as the module starts: both empty. -/
def PyClassState.fresh : PyClassState K V := ⟨[], []⟩

/-- `Dictionary()`: a new instance has no attributes of its own. -/
def PyInstance.fresh : PyInstance K V := ⟨none, none, none, none⟩

/-- Reading `self._used`: instance attribute if set, else the class's 0. -/
def PyInstance.usedVal (s : PyInstance K V) : Int := s.used.getD 0

/-- Reading `self._fill`: instance attribute if set, else the class's 8. -/
def PyInstance.fillVal (s : PyInstance K V) : Int := s.fill.getD 8

/-- Reading `self._small_table` (attribute resolution). -/
def readSmall (w : PyClassState K V) (s : PyInstance K V) :
    List (DictEntry K V) := s.small_table.getD w.small_table

/-- Reading `self._table` (attribute resolution). -/
def readHeap (w : PyClassState K V) (s : PyInstance K V) :
    List (DictEntry K V) := s.table.getD w.table

/-- The `table` property under attribute resolution. -/
def pyTable (w : PyClassState K V) (s : PyInstance K V) :
    List (DictEntry K V) :=
  if s.fillVal ≤ 8 then readSmall w s else readHeap w s

/-- In-place mutation of the list object `self._small_table` resolves to:
the instance's own list if rebound, otherwise the shared class list. -/
def writeSmall (w : PyClassState K V) (s : PyInstance K V)
    (t : List (DictEntry K V)) : PyClassState K V × PyInstance K V :=
  match s.small_table with
  | some _ => (w, { s with small_table := some t })
  | none => ({ w with small_table := t }, s)

/-- In-place mutation of the list object `self._table` resolves to. -/
def writeHeap (w : PyClassState K V) (s : PyInstance K V)
    (t : List (DictEntry K V)) : PyClassState K V × PyInstance K V :=
  match s.table with
  | some _ => (w, { s with table := some t })
  | none => ({ w with table := t }, s)

/-- In-place mutation of whatever list the `table` property returns. -/
def pyWriteTable (w : PyClassState K V) (s : PyInstance K V)
    (t : List (DictEntry K V)) : PyClassState K V × PyInstance K V :=
  if s.fillVal ≤ 8 then writeSmall w s t else writeHeap w s t

/-- `_expand` under attribute resolution: appending to `self._table`
mutates the resolved list object; `self._small_table = []` and
`self._fill = ...` rebind instance attributes. -/
def pyExpand (w : PyClassState K V) (s : PyInstance K V) :
    PyClassState K V × PyInstance K V :=
  let ws :=
    if s.fillVal = 8 then
      let ws' := writeHeap w s (readHeap w s ++ readSmall w s)
      (ws'.1, { ws'.2 with small_table := some [] })
    else (w, s)
  (ws.1, { ws.2 with fill := some (ws.2.fillVal * 2) })

/-- `_update_table_size` under attribute resolution. -/
def pyUTS (w : PyClassState K V) (s : PyInstance K V) :
    PyClassState K V × PyInstance K V :=
  let s1 := { s with used := some (s.usedVal + 1) }
  if 2 * s1.fillVal < 3 * s1.usedVal then pyExpand w s1 else (w, s1)

/-- `__setitem__` under attribute resolution. -/
def pySetItem (ctx : PyCtx K V) (w : PyClassState K V) (s : PyInstance K V)
    (key : K) (value : V) : PyClassState K V × PyInstance K V :=
  match updateValue (ctx.hsh key) value (pyTable w s) with
  | some t => pyWriteTable w s t
  | none =>
    let new_entry := mkEntry ctx key value
    match replaceDummy new_entry (pyTable w s) with
    | some t =>
      let ws := pyWriteTable w s t
      pyUTS ws.1 ws.2
    | none =>
      let ws := pyWriteTable w s (pyTable w s ++ [new_entry])
      pyUTS ws.1 ws.2

/-- `__getitem__` under attribute resolution (reads only). -/
def pyGetItem (ctx : PyCtx K V) (w : PyClassState K V) (s : PyInstance K V)
    (key : K) (default : Option V) : Except K V :=
  match lookupHash (ctx.hsh key) (pyTable w s) with
  | some v => .ok v
  | none =>
    match default with
    | some dv => if ctx.truthy dv then .ok dv else .error key
    | none => .error key

/-- C8 counterexample: insert `1 ↦ 10` through a first fresh instance, then
create a second instance (`PyInstance.fresh`); its lookup of key 1 *hits*,
returning 10 — the class-level inline store is shared, so the second
container is not empty and its lookups do not all miss. -/
theorem second_container_not_empty_cex :
    pyGetItem ctx0
        (pySetItem ctx0 PyClassState.fresh PyInstance.fresh 1 10).1
        PyInstance.fresh 1 none = .ok 10 ∧
      (Except.ok 10 : Except Int Int) ≠ Except.error 1 :=
  ⟨rfl, fun h => Except.noConfusion h⟩

/-- C8 amended: a newly created container always reads `used = 0` and
`fill = 8`, and from a clean module state its stores are empty; but the
stores are class-level objects shared between instances, so after a first
instance inserts a key, a second freshly created instance sees that entry
through the shared inline store and looking the key up in it returns the
first instance's value. -/
theorem fresh_instance_shares_class_store (ctx : PyCtx K V) (k : K) (v : V) :
    (PyInstance.fresh : PyInstance K V).usedVal = 0 ∧
    (PyInstance.fresh : PyInstance K V).fillVal = 8 ∧
    pyTable (PyClassState.fresh : PyClassState K V) PyInstance.fresh = [] ∧
    pyGetItem ctx (pySetItem ctx PyClassState.fresh PyInstance.fresh k v).1
      PyInstance.fresh k none = .ok v := by
  refine ⟨rfl, rfl, rfl, ?_⟩
  simp [pyGetItem, pySetItem, pyTable, pyWriteTable, pyUTS, pyExpand,
    writeSmall, writeHeap, readSmall, readHeap, PyClassState.fresh,
    PyInstance.fresh, PyInstance.usedVal, PyInstance.fillVal,
    updateValue, replaceDummy, lookupHash, mkEntry]

/-- C9: for every reachable container state, `fill` starts at 8; the active
store is the inline store exactly when `fill <= 8` and the promoted store
exactly when `fill > 8`, re-evaluated from the current `fill` on every
access; every non-`clear` operation either keeps `fill` or doubles it (so
`fill` never decreases), and `clear` resets it to 8. -/
theorem fill_policy (ctx : PyCtx K V) (d : Dictionary K V)
    (h : Reachable ctx d) :
    (Dictionary.empty : Dictionary K V).fill_ = 8 ∧
    d.table = (if d.fill_ ≤ 8 then d.small_table_ else d.table_) ∧
    d.state = (if d.fill_ ≤ 8 then DictState.Inline else DictState.Promoted) ∧
    (∀ op, op ≠ Op.clear →
      (step ctx d op).fill_ = d.fill_ ∨ (step ctx d op).fill_ = 2 * d.fill_) ∧
    (∀ op, d.fill_ ≤ (step ctx d op).fill_ ∨ (step ctx d op).fill_ = 8) ∧
    (step ctx d Op.clear).fill_ = 8 := by
  have hWF := h.WF
  refine ⟨rfl, rfl, ?_, fun op hop => step_fill ctx d op hop, ?_, rfl⟩
  · unfold Dictionary.state
    split <;> rfl
  · intro op
    by_cases hop : op = Op.clear
    · right; subst hop; rfl
    · left
      rcases step_fill ctx d op hop with he | he
      · rw [he]
      · rw [he]; linarith [hWF.1]

/-- C9 witness: the fresh container is reachable and satisfies the policy
conjunction; in particular one `set` step from it keeps `fill = 8`. -/
theorem fill_policy_witness :
    Reachable ctx0 (Dictionary.empty : Dictionary Int Int) ∧
      ((step ctx0 (Dictionary.empty : Dictionary Int Int)
          (Op.set 1 10)).fill_ =
          (Dictionary.empty : Dictionary Int Int).fill_ ∨
        (step ctx0 (Dictionary.empty : Dictionary Int Int)
          (Op.set 1 10)).fill_ =
          2 * (Dictionary.empty : Dictionary Int Int).fill_) :=
  ⟨⟨[], rfl⟩,
    (fill_policy ctx0 Dictionary.empty ⟨[], rfl⟩).2.2.2.1
      (Op.set 1 10) (by decide)⟩

/-- C1: for every hashable key `k` and value `v`, `set(c, k, v)` followed by
`get(c, k)` (no default) returns `v`, for any well-formed container state
(every state a container can actually reach). -/
theorem set_then_get_roundtrip (ctx : PyCtx K V) (d : Dictionary K V)
    (hWF : d.WF) (k : K) (v : V) :
    (d.setItem ctx k v).getItem ctx k none = .ok v := by
  rw [setItem_eq]
  cases hu : updateValue (ctx.hsh k) v d.table with
  | some t =>
    unfold Dictionary.getItem
    rw [setTable_table, updateValue_some_lookup (ctx.hsh k) v hu]
  | none =>
    have hmiss : ∀ e ∈ d.table, e.hash ≠ ctx.hsh k :=
      (updateValue_none_iff _ _ _).mp hu
    cases hr : replaceDummy (mkEntry ctx k v) d.table with
    | some t =>
      unfold Dictionary.getItem
      rw [uts_table _ (setTable_WF d t hWF), setTable_table,
        replaceDummy_some_lookup (ctx.hsh k) hr hmiss rfl]
      rfl
    | none =>
      unfold Dictionary.getItem
      rw [uts_table _ (setTable_WF d _ hWF), setTable_table,
        lookupHash_append _ _ _ hmiss]
      simp [lookupHash, mkEntry]

/-- C1 witness: a concrete round trip through a fresh container. -/
theorem set_then_get_roundtrip_witness :
    (Dictionary.empty : Dictionary Int Int).WF ∧
      (Dictionary.empty.setItem ctx0 3 7).getItem ctx0 3 none = .ok 7 :=
  ⟨⟨by decide, fun _ => rfl⟩,
    set_then_get_roundtrip ctx0 Dictionary.empty ⟨by decide, fun _ => rfl⟩ 3 7⟩

end PyDict
